import Mathlib

/-!
Verification of the cursor-pagination core of `graphql_relay` (the
`connection/array_connection.py` module).  Python strings are modelled as
`List Char` (a Python `str` is a sequence of Unicode code points), Python
`int` as `ℤ`, `None`-able values as `Option`, and `raise ValueError` as
`Except.error`.
-/

/-! ### Model of Python's `int(str)` parsing and decimal formatting

Python's `int` builtin strips surrounding whitespace, accepts an optional
sign and decimal digits with single underscores between digits.  The model
covers ASCII input (every string this development quantifies over is
ASCII; Python additionally accepts non-ASCII decimal digits and Unicode
whitespace, which no string built from the cursor alphabet can contain).
-/

def isDecDigit (c : Char) : Bool := decide (48 ≤ c.toNat) && decide (c.toNat ≤ 57)

def pyDigitVal (c : Char) : ℕ := c.toNat - 48

def pyIntDigitsGo (acc : ℕ) : List Char → Option ℕ
  | [] => some acc
  | c :: rest =>
    if isDecDigit c then pyIntDigitsGo (acc * 10 + pyDigitVal c) rest
    else if c = '_' then
      match rest with
      | c2 :: rest2 =>
        if isDecDigit c2 then pyIntDigitsGo (acc * 10 + pyDigitVal c2) rest2 else none
      | [] => none
    else none

def pyIntDigits : List Char → Option ℕ
  | [] => none
  | c :: rest => if isDecDigit c then pyIntDigitsGo (pyDigitVal c) rest else none

def isPySpace (c : Char) : Bool :=
  c = ' ' || c = '\t' || c = '\n' || c = '\r' || c = '\x0b' || c = '\x0c'

def stripPySpace (s : List Char) : List Char :=
  ((s.dropWhile isPySpace).reverse.dropWhile isPySpace).reverse

def pyIntCore : List Char → Option ℤ
  | [] => none
  | c :: rest =>
    if c = '+' then (pyIntDigits rest).map (fun n => (n : ℤ))
    else if c = '-' then (pyIntDigits rest).map (fun n => -(n : ℤ))
    else (pyIntDigits (c :: rest)).map (fun n => (n : ℤ))

def pyInt (s : List Char) : Option ℤ := pyIntCore (stripPySpace s)

/-- Decimal digits of a natural number, most significant first, written
with explicit fuel so that it reduces inside the kernel; models Python's
decimal formatting of a non-negative integer. -/
def natDecDigitsGo : ℕ → ℕ → List Char → List Char
  | 0, _, acc => acc
  | fuel + 1, n, acc =>
    if n < 10 then Char.ofNat (48 + n) :: acc
    else natDecDigitsGo fuel (n / 10) (Char.ofNat (48 + n % 10) :: acc)

def natDecDigits (n : ℕ) : List Char := natDecDigitsGo (n + 1) n []

theorem natDecDigitsGo_acc (fuel : ℕ) :
    ∀ n acc, natDecDigitsGo fuel n acc = natDecDigitsGo fuel n [] ++ acc := by
  induction fuel with
  | zero => intro n acc; rfl
  | succ f ih =>
    intro n acc
    rw [natDecDigitsGo, natDecDigitsGo]
    split
    · rfl
    · rw [ih (n / 10), ih (n / 10) [Char.ofNat (48 + n % 10)], List.append_assoc]
      rfl

theorem natDecDigitsGo_fuel (n : ℕ) :
    ∀ f f', n < 10 ^ f → n < 10 ^ f' → 1 ≤ f → 1 ≤ f' →
      natDecDigitsGo f n [] = natDecDigitsGo f' n [] := by
  induction n using Nat.strong_induction_on with
  | _ n ih =>
    intro f f' hf hf' h1 h1'
    obtain ⟨g, rfl⟩ := Nat.exists_eq_succ_of_ne_zero (show f ≠ 0 by omega)
    obtain ⟨g', rfl⟩ := Nat.exists_eq_succ_of_ne_zero (show f' ≠ 0 by omega)
    rw [natDecDigitsGo, natDecDigitsGo]
    split
    · rfl
    · rename_i hge
      have hg1 : 1 ≤ g := by
        by_contra hg
        have : g = 0 := by omega
        subst this
        simp at hf
        omega
      have hg1' : 1 ≤ g' := by
        by_contra hg
        have : g' = 0 := by omega
        subst this
        simp at hf'
        omega
      have hdiv : n / 10 < n := Nat.div_lt_self (by omega) (by omega)
      have hd : n / 10 < 10 ^ g := by
        have : n < 10 ^ g * 10 := by
          calc n < 10 ^ (g + 1) := hf
          _ = 10 ^ g * 10 := by ring
        omega
      have hd' : n / 10 < 10 ^ g' := by
        have : n < 10 ^ g' * 10 := by
          calc n < 10 ^ (g' + 1) := hf'
          _ = 10 ^ g' * 10 := by ring
        omega
      rw [natDecDigitsGo_acc g, natDecDigitsGo_acc g',
        ih (n / 10) hdiv g g' hd hd' hg1 hg1']

theorem natDecDigits_eq (n : ℕ) :
    natDecDigits n = if n < 10 then [Char.ofNat (48 + n)]
      else natDecDigits (n / 10) ++ [Char.ofNat (48 + n % 10)] := by
  rw [natDecDigits, natDecDigitsGo]
  split
  · rfl
  · rename_i hge
    rw [natDecDigitsGo_acc, natDecDigits]
    congr 1
    refine natDecDigitsGo_fuel (n / 10) n (n / 10 + 1) ?_ ?_ (by omega) (by omega)
    · calc n / 10 < n := Nat.div_lt_self (by omega) (by omega)
      _ < 10 ^ n := Nat.lt_pow_self (by omega) n
    · calc n / 10 < 10 ^ (n / 10) := Nat.lt_pow_self (by omega) _
      _ ≤ 10 ^ (n / 10 + 1) := Nat.pow_le_pow_right (by omega) (by omega)

/-- Models the Python f-string formatting `f"{offset}"` of an `int`. -/
def intDecRepr (i : ℤ) : List Char :=
  if i < 0 then '-' :: natDecDigits (-i).toNat else natDecDigits i.toNat

theorem char_toNat_ofNat_digit (m : ℕ) (h : m < 10) :
    (Char.ofNat (48 + m)).toNat = 48 + m := by
  interval_cases m <;> decide

theorem isDecDigit_ofNat_digit (m : ℕ) (h : m < 10) :
    isDecDigit (Char.ofNat (48 + m)) = true := by
  simp only [isDecDigit, char_toNat_ofNat_digit m h, Bool.and_eq_true,
    decide_eq_true_eq]
  omega

theorem natDecDigits_digits (n : ℕ) : ∀ c ∈ natDecDigits n, isDecDigit c := by
  induction n using Nat.strong_induction_on with
  | _ n ih =>
    rw [natDecDigits_eq]
    split
    · intro c hc
      simp only [List.mem_singleton] at hc
      subst hc
      rename_i h
      exact isDecDigit_ofNat_digit n h
    · intro c hc
      rw [List.mem_append] at hc
      rcases hc with hc | hc
      · exact ih (n / 10) (Nat.div_lt_self (by omega) (by omega)) c hc
      · simp only [List.mem_singleton] at hc
        subst hc
        exact isDecDigit_ofNat_digit (n % 10) (Nat.mod_lt _ (by omega))

theorem natDecDigits_ne_nil (n : ℕ) : natDecDigits n ≠ [] := by
  rw [natDecDigits_eq]
  split
  · simp
  · simp

theorem pyIntDigitsGo_all_digits (xs : List Char) :
    ∀ acc, (∀ c ∈ xs, isDecDigit c) →
      pyIntDigitsGo acc xs = some (xs.foldl (fun a c => a * 10 + pyDigitVal c) acc) := by
  induction xs with
  | nil => intro acc _; rfl
  | cons c rest ih =>
    intro acc h
    have hc : isDecDigit c := h c (by simp)
    rw [pyIntDigitsGo.eq_def]
    simp only [hc, if_true, List.foldl_cons]
    exact ih _ (fun x hx => h x (by simp [hx]))

def digitsVal (xs : List Char) : ℕ :=
  xs.foldl (fun a c => a * 10 + pyDigitVal c) 0

theorem pyIntDigits_all_digits (xs : List Char) (hne : xs ≠ [])
    (h : ∀ c ∈ xs, isDecDigit c) : pyIntDigits xs = some (digitsVal xs) := by
  cases xs with
  | nil => exact absurd rfl hne
  | cons c rest =>
    have hc : isDecDigit c := h c (by simp)
    rw [pyIntDigits.eq_def]
    simp only [hc, if_true, digitsVal, List.foldl_cons, Nat.zero_mul, Nat.zero_add]
    exact pyIntDigitsGo_all_digits rest _ (fun x hx => h x (by simp [hx]))

theorem digitsVal_natDecDigits (n : ℕ) : digitsVal (natDecDigits n) = n := by
  induction n using Nat.strong_induction_on with
  | _ n ih =>
    rw [natDecDigits_eq]
    split
    · rename_i h
      simp only [digitsVal, List.foldl_cons, List.foldl_nil, pyDigitVal]
      rw [char_toNat_ofNat_digit n h]
      omega
    · rename_i h
      simp only [digitsVal, List.foldl_append, List.foldl_cons, List.foldl_nil]
      have h1 := ih (n / 10) (Nat.div_lt_self (by omega) (by omega))
      simp only [digitsVal] at h1
      rw [h1, pyDigitVal, char_toNat_ofNat_digit (n % 10) (Nat.mod_lt _ (by omega))]
      omega

theorem pyIntDigits_natDecDigits (n : ℕ) :
    pyIntDigits (natDecDigits n) = some n := by
  rw [pyIntDigits_all_digits _ (natDecDigits_ne_nil n) (natDecDigits_digits n),
    digitsVal_natDecDigits]

theorem isPySpace_digit_false (c : Char) (h : isDecDigit c) : isPySpace c = false := by
  have h48 : 48 ≤ c.toNat := by
    simp only [isDecDigit, Bool.and_eq_true, decide_eq_true_eq] at h
    exact h.1
  simp only [isPySpace, Bool.or_eq_false_iff, decide_eq_false_iff_not]
  refine ⟨⟨⟨⟨⟨?_, ?_⟩, ?_⟩, ?_⟩, ?_⟩, ?_⟩ <;>
    · intro he
      subst he
      exact absurd h48 (by decide)

theorem dropWhile_no_space (s : List Char) (h : ∀ c ∈ s, isPySpace c = false) :
    s.dropWhile isPySpace = s := by
  cases s with
  | nil => rfl
  | cons c rest =>
    rw [List.dropWhile_cons, h c (by simp)]
    simp

theorem stripPySpace_no_space (s : List Char) (h : ∀ c ∈ s, isPySpace c = false) :
    stripPySpace s = s := by
  unfold stripPySpace
  rw [dropWhile_no_space s h, dropWhile_no_space _ (by
    intro c hc
    exact h c (List.mem_reverse.mp hc)), List.reverse_reverse]

theorem pyInt_natDecDigits (n : ℕ) : pyInt (natDecDigits n) = some (n : ℤ) := by
  have hd := natDecDigits_digits n
  have hstrip : stripPySpace (natDecDigits n) = natDecDigits n :=
    stripPySpace_no_space _ (fun c hc => isPySpace_digit_false c (hd c hc))
  rw [pyInt, hstrip]
  cases he : natDecDigits n with
  | nil => exact absurd he (natDecDigits_ne_nil n)
  | cons c rest =>
    have hc : isDecDigit c := by rw [he] at hd; exact hd c (by simp)
    have h48 : 48 ≤ c.toNat ∧ c.toNat ≤ 57 := by
      simp only [isDecDigit, Bool.and_eq_true, decide_eq_true_eq] at hc
      exact hc
    have hplus : c ≠ '+' := by
      intro hhe; subst hhe
      exact absurd h48 (by decide)
    have hminus : c ≠ '-' := by
      intro hhe; subst hhe
      exact absurd h48 (by decide)
    rw [pyIntCore.eq_def]
    simp only [if_neg hplus, if_neg hminus]
    rw [← he, pyIntDigits_natDecDigits n]
    rfl

theorem pyInt_intDecRepr (i : ℤ) : pyInt (intDecRepr i) = some i := by
  rw [intDecRepr]
  split
  · rename_i hneg
    have hd := natDecDigits_digits (-i).toNat
    have hstrip : stripPySpace ('-' :: natDecDigits (-i).toNat) =
        '-' :: natDecDigits (-i).toNat := by
      refine stripPySpace_no_space _ ?_
      intro c hc
      rcases List.mem_cons.mp hc with hc | hc
      · subst hc; decide
      · exact isPySpace_digit_false c (hd c hc)
    rw [pyInt, hstrip, pyIntCore.eq_def]
    simp only [eq_false (show ¬(('-' : Char) = '+') by decide), if_false,
      eq_self_iff_true, if_true]
    rw [pyIntDigits_natDecDigits]
    have h2 : -(((-i).toNat : ℤ)) = i := by omega
    simp [h2]
    omega
  · rename_i hpos
    rw [pyInt_natDecDigits i.toNat]
    congr 1
    omega

/-! ### The cursor encoding

The repository's `utils.base64` module (imported by
`array_connection.py` as `base64`/`unbase64`) is not among the provided
source files.  Modelled from the spec: the cursor is "the base64-style
encoding of a fixed prefix concatenated with a non-negative integer
offset", realised as "a reversible text-safe encoding (base64 over UTF-8
is sufficient ...)", and "decoding a string not matching
`<prefix><integer>` yields 'no value' rather than an error; decoding is
total (never throws)".  We therefore model `base64` as RFC 4648 base64
over the UTF-8 bytes of the string and `unbase64` as the total,
validating decoder returning `none` on malformed input (the Python
implementation catches the decoding errors, which `cursor_to_offset`
turns into `None`).
-/

/-- Modelled from the spec: UTF-8 encoding of one code point (bytes as
naturals), part of the missing `utils.base64` module's "base64 over
UTF-8" encoding. -/
def utf8EncodeChar (c : Char) : List ℕ :=
  let n := c.toNat
  if n < 128 then [n]
  else if n < 2048 then [192 + n / 64, 128 + n % 64]
  else if n < 65536 then [224 + n / 4096, 128 + n / 64 % 64, 128 + n % 64]
  else [240 + n / 262144, 128 + n / 4096 % 64, 128 + n / 64 % 64, 128 + n % 64]

def utf8Encode (s : List Char) : List ℕ := s.flatMap utf8EncodeChar

def mkChar (n : ℕ) : Option Char :=
  if n.isValidChar then some (Char.ofNat n) else none

def isCont (b : ℕ) : Bool := decide (128 ≤ b) && decide (b < 192)

/-- Modelled from the spec: total, validating UTF-8 decoding (the inverse
direction of `utf8EncodeChar`), written as a byte-at-a-time state machine.
The state carries a pending multi-byte sequence: accumulated value,
number of continuation bytes still expected, and the smallest code point
the sequence length may encode (rejecting overlong forms). -/
def consOpt (c? : Option Char) (cs? : Option (List Char)) : Option (List Char) :=
  match c?, cs? with
  | some c, some cs => some (c :: cs)
  | _, _ => none

def utf8DecodeGo : Option (ℕ × ℕ × ℕ) → List ℕ → Option (List Char)
  | none, [] => some []
  | some _, [] => none
  | none, b :: rest =>
    if b < 128 then consOpt (mkChar b) (utf8DecodeGo none rest)
    else if b < 192 then none
    else if b < 224 then utf8DecodeGo (some (b - 192, 1, 128)) rest
    else if b < 240 then utf8DecodeGo (some (b - 224, 2, 2048)) rest
    else if b < 248 then utf8DecodeGo (some (b - 240, 3, 65536)) rest
    else none
  | some (acc, k, m), b :: rest =>
    if isCont b then
      let acc2 := acc * 64 + (b - 128)
      if k = 1 then
        if m ≤ acc2 then consOpt (mkChar acc2) (utf8DecodeGo none rest)
        else none
      else utf8DecodeGo (some (acc2, k - 1, m)) rest
    else none

def utf8Decode (l : List ℕ) : Option (List Char) := utf8DecodeGo none l

/-- Modelled from the spec: the base64 alphabet of the text-safe
encoding. -/
def b64Alphabet : List Char :=
  "ABCDEFGHIJKLMNOPQRSTUVWXYZabcdefghijklmnopqrstuvwxyz0123456789+/".toList

def b64Char (v : ℕ) : Char := b64Alphabet.getD v '='

def b64Val (c : Char) : Option ℕ := b64Alphabet.findIdx? (· = c)

/-- Modelled from the spec: RFC 4648 base64 encoding of a byte list. -/
def b64EncodeBytes : List ℕ → List Char
  | [] => []
  | [a] => [b64Char (a / 4), b64Char (a % 4 * 16), '=', '=']
  | [a, b] => [b64Char (a / 4), b64Char (a % 4 * 16 + b / 16), b64Char (b % 16 * 4), '=']
  | a :: b :: c :: rest =>
    b64Char (a / 4) :: b64Char (a % 4 * 16 + b / 16) ::
      b64Char (b % 16 * 4 + c / 64) :: b64Char (c % 64) :: b64EncodeBytes rest

/-- Modelled from the spec: total, validating base64 decoding of a char
list into bytes; `none` on malformed input. -/
def b64DecodeBytes : List Char → Option (List ℕ)
  | [] => some []
  | c1 :: c2 :: c3 :: c4 :: rest =>
    if rest = [] ∧ c4 = '=' then
      if c3 = '=' then
        match b64Val c1, b64Val c2 with
        | some v1, some v2 => some [v1 * 4 + v2 / 16]
        | _, _ => none
      else
        match b64Val c1, b64Val c2, b64Val c3 with
        | some v1, some v2, some v3 => some [v1 * 4 + v2 / 16, v2 % 16 * 16 + v3 / 4]
        | _, _, _ => none
    else
      match b64Val c1, b64Val c2, b64Val c3, b64Val c4, b64DecodeBytes rest with
      | some v1, some v2, some v3, some v4, some bs =>
        some ((v1 * 4 + v2 / 16) :: (v2 % 16 * 16 + v3 / 4) :: (v3 % 4 * 64 + v4) :: bs)
      | _, _, _, _, _ => none
  | _ => none

/-- Modelled from the spec: `base64(s)` of the missing `utils.base64`
module, a reversible text-safe encoding ("base64 over UTF-8"). -/
def base64 (s : List Char) : List Char := b64EncodeBytes (utf8Encode s)

/-- Modelled from the spec: `unbase64(s)`; total, `none` where the Python
function signals failure (which `cursor_to_offset` maps to `None`). -/
def unbase64 (s : List Char) : Option (List Char) :=
  match b64DecodeBytes s with
  | some bs => utf8Decode bs
  | none => none

theorem b64Val_b64Char (v : ℕ) (h : v < 64) : b64Val (b64Char v) = some v := by
  interval_cases v <;> decide

theorem b64Char_ne_pad (v : ℕ) (h : v < 64) : b64Char v ≠ '=' := by
  interval_cases v <;> decide

theorem b64_decode_encode (bs : List ℕ) (h : ∀ x ∈ bs, x < 256) :
    b64DecodeBytes (b64EncodeBytes bs) = some bs := by
  induction bs using b64EncodeBytes.induct with
  | case1 => rfl
  | case2 a =>
    have ha : a < 256 := h a (by simp)
    rw [b64EncodeBytes, b64DecodeBytes]
    rw [if_pos ⟨rfl, rfl⟩, if_pos rfl]
    rw [b64Val_b64Char (a / 4) (by omega), b64Val_b64Char (a % 4 * 16) (by omega)]
    simp only
    congr 2
    omega
  | case3 a b =>
    have ha : a < 256 := h a (by simp)
    have hb : b < 256 := h b (by simp)
    rw [b64EncodeBytes, b64DecodeBytes]
    rw [if_pos ⟨rfl, rfl⟩, if_neg (b64Char_ne_pad (b % 16 * 4) (by omega))]
    rw [b64Val_b64Char (a / 4) (by omega), b64Val_b64Char (a % 4 * 16 + b / 16) (by omega),
      b64Val_b64Char (b % 16 * 4) (by omega)]
    simp only
    congr 3
    · omega
    · omega
  | case4 a b c rest ih =>
    have ha : a < 256 := h a (by simp)
    have hb : b < 256 := h b (by simp)
    have hc : c < 256 := h c (by simp)
    have hrest : ∀ x ∈ rest, x < 256 := fun x hx => h x (by simp [hx])
    rw [b64EncodeBytes, b64DecodeBytes]
    rw [if_neg (by
      rintro ⟨-, h4⟩
      exact b64Char_ne_pad (c % 64) (by omega) h4)]
    rw [b64Val_b64Char (a / 4) (by omega), b64Val_b64Char (a % 4 * 16 + b / 16) (by omega),
      b64Val_b64Char (b % 16 * 4 + c / 64) (by omega), b64Val_b64Char (c % 64) (by omega),
      ih hrest]
    simp only
    congr 4
    · omega
    · omega
    · omega

theorem utf8Encode_nil : utf8Encode [] = [] := rfl

theorem utf8Encode_cons (c : Char) (s : List Char) :
    utf8Encode (c :: s) = utf8EncodeChar c ++ utf8Encode s := by
  simp [utf8Encode]

theorem utf8EncodeChar_ascii (c : Char) (h : c.toNat < 128) :
    utf8EncodeChar c = [c.toNat] := by
  rw [utf8EncodeChar]
  simp [h]

theorem char_ofNat_toNat (c : Char) : Char.ofNat c.toNat = c := Char.ofNat_toNat c

theorem mkChar_toNat (c : Char) : mkChar c.toNat = some c := by
  rw [mkChar, if_pos]
  · rw [char_ofNat_toNat]
  · rcases c with ⟨v, hv⟩
    exact hv

theorem utf8DecodeGo_none_ascii_cons (b : ℕ) (hb : b < 128) (rest : List ℕ) :
    utf8DecodeGo none (b :: rest) = consOpt (mkChar b) (utf8DecodeGo none rest) := by
  rw [utf8DecodeGo.eq_3, if_pos hb]

theorem utf8_decode_encode_ascii (s : List Char) (h : ∀ c ∈ s, c.toNat < 128) :
    utf8Decode (utf8Encode s) = some s := by
  induction s with
  | nil => rfl
  | cons c rest ih =>
    have hc : c.toNat < 128 := h c (by simp)
    rw [utf8Encode_cons, utf8EncodeChar_ascii c hc, List.singleton_append, utf8Decode,
      utf8DecodeGo_none_ascii_cons c.toNat hc, mkChar_toNat c]
    have ihr : utf8DecodeGo none (utf8Encode rest) = some rest := by
      rw [← utf8Decode]
      exact ih (fun x hx => h x (by simp [hx]))
    rw [ihr]
    rfl

theorem utf8Encode_ascii_eq_map (s : List Char) (h : ∀ c ∈ s, c.toNat < 128) :
    utf8Encode s = s.map Char.toNat := by
  induction s with
  | nil => rfl
  | cons c rest ih =>
    rw [utf8Encode_cons, utf8EncodeChar_ascii c (h c (by simp)), List.map_cons,
      List.singleton_append, ih (fun x hx => h x (by simp [hx]))]

theorem unbase64_base64_ascii (s : List Char) (h : ∀ c ∈ s, c.toNat < 128) :
    unbase64 (base64 s) = some s := by
  rw [base64, unbase64]
  rw [b64_decode_encode (utf8Encode s) (by
    rw [utf8Encode_ascii_eq_map s h]
    intro x hx
    rcases List.mem_map.mp hx with ⟨c, hc, rfl⟩
    exact Nat.lt_of_lt_of_le (h c hc) (by omega))]
  exact utf8_decode_encode_ascii s h

/-! ### The cursor codec of `array_connection.py` -/

/-- The module-level constant `PREFIX = "arrayconnection:"`. -/
def PREFIX : List Char := "arrayconnection:".toList

/-- `offset_to_cursor(offset)`: `base64(f"{PREFIX}{offset}")`. -/
def offset_to_cursor (offset : ℤ) : List Char :=
  base64 ( PREFIX ++ intDecRepr offset)

/-- `cursor_to_offset(cursor)`: `int(unbase64(cursor)[len(PREFIX):])`,
with the `ValueError` of a failed decode or parse caught and turned into
`None`. -/
def cursor_to_offset (cursor : List Char) : Option ℤ :=
  match unbase64 cursor with
  | some s => pyInt (s.drop PREFIX.length)
  | none => none

theorem cursorTag_ascii : ∀ c ∈ PREFIX, c.toNat < 128 := by decide

theorem intDecRepr_ascii (i : ℤ) : ∀ c ∈ intDecRepr i, c.toNat < 128 := by
  rw [intDecRepr]
  have hdig : ∀ (n : ℕ), ∀ c ∈ natDecDigits n, c.toNat < 128 := by
    intro n c hc
    have := natDecDigits_digits n c hc
    simp only [isDecDigit, Bool.and_eq_true, decide_eq_true_eq] at this
    omega
  split
  · intro c hc
    rcases List.mem_cons.mp hc with hc | hc
    · subst hc; decide
    · exact hdig _ c hc
  · exact hdig _

theorem cursor_to_offset_offset_to_cursor (i : ℤ) :
    cursor_to_offset (offset_to_cursor i) = some i := by
  rw [offset_to_cursor, cursor_to_offset]
  rw [unbase64_base64_ascii ( PREFIX ++ intDecRepr i) (by
    intro c hc
    rcases List.mem_append.mp hc with hc | hc
    · exact cursorTag_ascii c hc
    · exact intDecRepr_ascii i c hc)]
  show pyInt (( PREFIX ++ intDecRepr i).drop PREFIX.length) = some i
  rw [List.drop_left, pyInt_intDecRepr]

/-! ### Python slice semantics and the connection data model -/

/-- Normalisation of one slice bound for a list of length `len`, following
Python's rules for a step-1 slice: negative indices count from the end,
then the bound is clamped to `[0, len]`. -/
def sliceIndex (len : ℕ) (i : ℤ) : ℕ :=
  if i < 0 then ((len : ℤ) + i).toNat else min i.toNat len

/-- `l[a:b]` on a Python list. -/
def pySlice (l : List α) (a b : ℤ) : List α :=
  (l.take (sliceIndex l.length b)).drop (sliceIndex l.length a)

structure Edge (α : Type) where
  node : α
  cursor : List Char
deriving DecidableEq

structure PageInfo where
  startCursor : Option (List Char)
  endCursor : Option (List Char)
  hasPreviousPage : Bool
  hasNextPage : Bool
deriving DecidableEq

structure Connection (α : Type) where
  edges : List (Edge α)
  pageInfo : PageInfo
deriving DecidableEq

/-- The `args` dictionary read by `connection_from_array_slice`: the code
reads only the keys `before`, `after`, `first` and `last` (`offset` can be
present but is never read). -/
structure ConnectionArguments where
  first : Option ℤ := none
  last : Option ℤ := none
  after : Option (List Char) := none
  before : Option (List Char) := none
  offset : Option ℤ := none
deriving DecidableEq

/-- Python truthiness of an `Optional[int]`: `None` and `0` are falsy. -/
def pyTruthyInt : Option ℤ → Bool
  | none => false
  | some n => n != 0

/-- Python truthiness of an `Optional[str]`: `None` and `""` are falsy. -/
def pyTruthyStr : Option (List Char) → Bool
  | none => false
  | some s => !s.isEmpty

/-- The idiom `cursor_to_offset(c) if c else None` used for both `after`
and `before`. -/
def effectiveCursorOffset : Option (List Char) → Option ℤ
  | some s => if s.isEmpty then none else cursor_to_offset s
  | none => none

/-- The edge-building comprehension shared by both handlers:
`[edge_type(node=node, cursor=offset_to_cursor(start_offset + index)) for
index, node in enumerate(trimmed_slice)]`. -/
def edgesFrom (start : ℤ) (nodes : List α) : List (Edge α) :=
  nodes.enum.map (fun p => { node := p.2, cursor := offset_to_cursor (start + p.1) })

/-- The `start_offset` computation of `_handle_first_after` (lines
252-257): start right past `after` (clamped below by `slice_start`), but
reset to `0` when `after` lies beyond a known `array_length`. -/
def forwardStartOffset (slice_start : ℤ) (after_offset : Option ℤ)
    (array_length : Option ℤ) : ℤ :=
  let s := max slice_start (match after_offset with | none => 0 | some a => a + 1)
  match array_length, after_offset with
  | some n, some a => if n < a then 0 else s
  | _, _ => s

/-- The `end_offset` computation of `_handle_first_after` (lines 259-266):
`start_offset + first`, capped at a known `array_length`. -/
def forwardEndOffset (start_offset first : ℤ) (array_length : Option ℤ) : ℤ :=
  let e := start_offset + first
  match array_length with
  | some n => if n < e then n else e
  | none => e

/-- The `end_offset` computation of `_handle_last_before` (lines 340-348):
`min(before_offset, array_length)` for a non-negative decoded `before`,
otherwise `array_length`. -/
def backwardEndOffset (before_offset : Option ℤ) (array_length : ℤ) : ℤ :=
  match before_offset with
  | some b => if 0 ≤ b then min b array_length else array_length
  | none => array_length

/-- `_handle_first_after`. -/
def handle_first_after (l : List α) (array_length : Option ℤ) (first : ℤ)
    (after : Option (List Char)) (slice_start : ℤ) :
    Except String (List (Edge α) × Bool × Bool) :=
  if first < 0 then Except.error "Argument 'first' must be a non-negative integer."
  else
    let after_offset := effectiveCursorOffset after
    let start_offset := forwardStartOffset slice_start after_offset array_length
    let end_offset := forwardEndOffset start_offset first array_length
    match array_length with
    | none =>
      let intermediate := pySlice l (start_offset - slice_start) (end_offset - slice_start + 1)
      let trimmed := pySlice intermediate 0 (end_offset - start_offset)
      Except.ok (edgesFrom start_offset trimmed,
        decide (0 < start_offset),
        decide (trimmed.length < intermediate.length))
    | some n =>
      let trimmed := pySlice l (start_offset - slice_start) (end_offset - slice_start)
      let first_edge_offset : ℤ :=
        match after_offset with
        | some a => if 0 ≤ a ∧ a < n then a + 1 else 0
        | none => 0
      let has_next := decide (first < n - 1 - first_edge_offset + 1)
      let has_previous :=
        match after_offset with
        | some a => if n < a then true else decide (0 < start_offset)
        | none => decide (0 < start_offset)
      Except.ok (edgesFrom start_offset trimmed, has_previous, has_next)

/-- `_handle_last_before`. -/
def handle_last_before (l : List α) (array_length : Option ℤ) (last : ℤ)
    (before : Option (List Char)) (slice_start : ℤ) :
    Except String (List (Edge α) × Bool × Bool) :=
  if last < 0 then Except.error "Argument 'last' must be a non-negative integer."
  else
    let before_offset := effectiveCursorOffset before
    let n := array_length.getD (l.length : ℤ)
    let end_offset := backwardEndOffset before_offset n
    let start_offset := max (end_offset - last) (max slice_start 0)
    let trimmed := pySlice l (start_offset - slice_start) (end_offset - slice_start)
    let has_next :=
      match before_offset with
      | some b => if b < 0 then true else decide (end_offset < n)
      | none => decide (end_offset < n)
    Except.ok (edgesFrom start_offset trimmed, decide (0 < start_offset), has_next)

/-- Lines 174-185: wrap the edges and flags into the `Connection` value,
taking `startCursor`/`endCursor` from the first/last edge (absent when the
edge list is empty). -/
def assembleConnection (edges : List (Edge α)) (hp hn : Bool) : Connection α :=
  { edges := edges,
    pageInfo := { startCursor := (edges.head?).map Edge.cursor,
                  endCursor := (edges.getLast?).map Edge.cursor,
                  hasPreviousPage := hp, hasNextPage := hn } }

/-- Lines 174-185: propagate a handler error, otherwise assemble the
connection from the returned `(edges, has_previous_page, has_next_page)`
triple. -/
def okAssemble : Except String (List (Edge α) × Bool × Bool) → Except String (Connection α)
  | Except.error e => Except.error e
  | Except.ok (edges, hp, hn) => Except.ok (assembleConnection edges hp hn)

/-- Lines 158-172: the `else` branch of the strategy dispatch, taking the
resolved `first` (`assert first is not None` modelled as an error). -/
def connectionSliceForward (array_slice : List α) (args : ConnectionArguments)
    (slice_start : ℤ) (alen : Option ℤ) : Option ℤ → Except String (Connection α)
  | some f => okAssemble (handle_first_after array_slice alen f args.after slice_start)
  | none => Except.error "assert first is not None"

/-- Lines 143-172: dispatch on the resolved `last` — backward strategy
when it is set, forward strategy otherwise. -/
def connectionSliceDispatch (array_slice : List α) (args : ConnectionArguments)
    (slice_start : ℤ) (alen first1 : Option ℤ) :
    Option ℤ → Except String (Connection α)
  | some lst => okAssemble (handle_last_before array_slice alen lst args.before slice_start)
  | none => connectionSliceForward array_slice args slice_start alen first1

/-- Lines 137-185 of `connection_from_array_slice`, after `first` and
`array_length` have been resolved to `first1`/`alen` by the defaulting
step: default `last` from `alen` when `before` is truthy (line 140-141),
then dispatch to the two strategies. -/
def connectionSliceResolved (array_slice : List α) (args : ConnectionArguments)
    (slice_start : ℤ) (first1 alen : Option ℤ) : Except String (Connection α) :=
  connectionSliceDispatch array_slice args slice_start alen first1
    (if args.last.isNone && pyTruthyStr args.before then alen else args.last)

/-- The body of `connection_from_array_slice` after the four mutual-
exclusion checks (lines 123-185): `array_slice_length`/`array_length`
resolution already folded into `alen0`, then the defaulting of `first`
(lines 127-135, falling back to `len(array_slice)` when no length is
known) followed by the rest of the call. -/
def connectionSliceDefaulted (array_slice : List α) (args : ConnectionArguments)
    (slice_start : ℤ) : Option ℤ → Except String (Connection α)
  | some n => connectionSliceResolved array_slice args slice_start (some n) (some n)
  | none =>
    connectionSliceResolved array_slice args slice_start
      (some (array_slice.length : ℤ)) (some (array_slice.length : ℤ))

def connectionSliceCore (array_slice : List α) (args : ConnectionArguments)
    (slice_start : ℤ) (alen0 : Option ℤ) : Except String (Connection α) :=
  if args.first.isNone && (pyTruthyStr args.after || args.last.isNone) then
    connectionSliceDefaulted array_slice args slice_start alen0
  else connectionSliceResolved array_slice args slice_start args.first alen0

/-- Lines 123-125: `array_slice_length`, if provided, is used as the
`array_length`. -/
def resolveSliceLength (array_slice_length array_length : Option ℤ) : Option ℤ :=
  match array_slice_length with
  | some v => some v
  | none => array_length

/-- `connection_from_array_slice`. -/
def connection_from_array_slice (array_slice : List α) (args : ConnectionArguments)
    (slice_start : ℤ) (array_length array_slice_length : Option ℤ) :
    Except String (Connection α) :=
  if pyTruthyInt args.first && pyTruthyInt args.last then
    Except.error "Mixing 'first' and 'last' is not supported."
  else if pyTruthyStr args.before && pyTruthyStr args.after then
    Except.error "Mixing 'before' and 'after' is not supported."
  else if pyTruthyInt args.first && pyTruthyStr args.before then
    Except.error "Mixing 'first' and 'before' is not supported."
  else if pyTruthyInt args.last && pyTruthyStr args.after then
    Except.error "Mixing 'last' and 'after' is not supported."
  else
    connectionSliceCore array_slice args slice_start
      (resolveSliceLength array_slice_length array_length)

/-- `connection_from_array`: `connection_from_array_slice` with
`slice_start=0` and `array_length=len(data)`. -/
def connection_from_array (data : List α) (args : ConnectionArguments) :
    Except String (Connection α) :=
  connection_from_array_slice data args 0 (some (data.length : ℤ)) none

/-! ### Slice and edge-list lemmas -/

theorem pySlice_eq (l : List α) (a b : ℤ) (ha0 : 0 ≤ a) (hb0 : 0 ≤ b)
    (ha : a ≤ (l.length : ℤ)) :
    pySlice l a b = (l.drop a.toNat).take (min b.toNat l.length - a.toNat) := by
  rw [pySlice, sliceIndex, sliceIndex, if_neg (by omega), if_neg (by omega)]
  rw [min_eq_left (by omega : a.toNat ≤ l.length)]
  rw [List.drop_take]

theorem pySlice_length (l : List α) (a b : ℤ) (ha0 : 0 ≤ a) (hb0 : 0 ≤ b)
    (ha : a ≤ (l.length : ℤ)) :
    (pySlice l a b).length = min b.toNat l.length - a.toNat := by
  rw [pySlice_eq l a b ha0 hb0 ha]
  simp only [List.length_take, List.length_drop]
  omega

theorem take_drop_length (l : List α) (a k : ℕ) :
    ((l.drop a).take k).length = min k (l.length - a) := by
  simp [List.length_take, List.length_drop]

theorem edgesFrom_length (s : ℤ) (nodes : List α) :
    (edgesFrom s nodes).length = nodes.length := by
  simp [edgesFrom]

theorem edgesFrom_map_cursor (s : ℤ) (nodes : List α) :
    (edgesFrom s nodes).map Edge.cursor =
      (List.range nodes.length).map (fun i : ℕ => offset_to_cursor (s + (i : ℤ))) := by
  rw [edgesFrom, List.map_map]
  rw [show (Edge.cursor ∘ fun p : ℕ × α =>
      ({ node := p.2, cursor := offset_to_cursor (s + p.1) } : Edge α)) =
    ((fun i : ℕ => offset_to_cursor (s + (i : ℤ))) ∘ Prod.fst) from rfl]
  rw [← List.map_map, List.enum_map_fst]

theorem edgesFrom_offsets (s : ℤ) (nodes : List α) :
    (edgesFrom s nodes).filterMap (fun e => cursor_to_offset e.cursor) =
      (List.range nodes.length).map (fun i : ℕ => s + (i : ℤ)) := by
  rw [edgesFrom, List.filterMap_map]
  rw [show ((fun e : Edge α => cursor_to_offset e.cursor) ∘ fun p : ℕ × α =>
      ({ node := p.2, cursor := offset_to_cursor (s + p.1) } : Edge α)) =
    fun p : ℕ × α => cursor_to_offset (offset_to_cursor (s + p.1)) from rfl]
  rw [show (fun p : ℕ × α => cursor_to_offset (offset_to_cursor (s + p.1))) =
    (some ∘ fun p : ℕ × α => s + (p.1 : ℤ)) from
      funext fun p => cursor_to_offset_offset_to_cursor _]
  rw [List.filterMap_eq_map]
  rw [show (fun p : ℕ × α => s + (p.1 : ℤ)) =
    ((fun i : ℕ => s + (i : ℤ)) ∘ Prod.fst) from rfl]
  rw [← List.map_map, List.enum_map_fst]

theorem edgesFrom_offsets_chain (s : ℤ) (nodes : List α) :
    List.Chain' (· < ·)
      ((edgesFrom s nodes).filterMap (fun e => cursor_to_offset e.cursor)) := by
  rw [edgesFrom_offsets]
  refine List.Pairwise.chain' ?_
  refine List.Pairwise.map _ (fun a b hab => ?_) (List.pairwise_lt_range _)
  omega

theorem handle_first_after_known (l : List α) (f : ℤ) (hf : 0 ≤ f)
    (after : Option (List Char))
    (hA : effectiveCursorOffset after = none ∨
      ∃ k : ℕ, (k : ℤ) < (l.length : ℤ) ∧ effectiveCursorOffset after = some (k : ℤ)) :
    ∃ s cnt : ℕ,
      (s : ℤ) = forwardStartOffset 0 (effectiveCursorOffset after) (some (l.length : ℤ)) ∧
      (cnt : ℤ) = min f ((l.length : ℤ) - (s : ℤ)) ∧
      s + cnt ≤ l.length ∧
      handle_first_after l (some (l.length : ℤ)) f after 0 =
        Except.ok (edgesFrom (s : ℤ) ((l.drop s).take cnt),
          decide (0 < s), decide (s + cnt < l.length)) := by
  rcases hA with heq | ⟨k, hk, heq⟩
  · have hstart : forwardStartOffset 0 (none : Option ℤ) (some (l.length : ℤ)) = 0 := by
      simp [forwardStartOffset]
    have hend : forwardEndOffset 0 f (some (l.length : ℤ)) = f ⊓ (l.length : ℤ) := by
      rw [forwardEndOffset]
      split <;> omega
    refine ⟨0, (f ⊓ (l.length : ℤ)).toNat, ?_, ?_, ?_, ?_⟩
    · rw [heq, hstart]
      rfl
    · push_cast
      omega
    · omega
    · rw [handle_first_after, if_neg (by omega : ¬ f < 0)]
      simp only [heq, hstart, hend]
      rw [show (0 : ℤ) - 0 = 0 by ring, show f ⊓ (l.length : ℤ) - 0 = f ⊓ (l.length : ℤ) by ring]
      rw [pySlice_eq l 0 (f ⊓ (l.length : ℤ)) le_rfl (by omega) (by omega)]
      simp only [Except.ok.injEq, Prod.mk.injEq]
      refine ⟨?_, ?_, ?_⟩
      · rw [show min (f ⊓ (l.length : ℤ)).toNat l.length - (0 : ℤ).toNat =
          (f ⊓ (l.length : ℤ)).toNat from by omega]
        rfl
      · rfl
      · rw [decide_eq_decide]
        omega
  · have hk' : (k : ℤ) + 1 ≤ (l.length : ℤ) := by omega
    have hstart : forwardStartOffset 0 (some (k : ℤ)) (some (l.length : ℤ)) = (k : ℤ) + 1 := by
      simp only [forwardStartOffset]
      rw [if_neg (by omega : ¬ (l.length : ℤ) < (k : ℤ))]
      omega
    have hend : forwardEndOffset ((k : ℤ) + 1) f (some (l.length : ℤ)) =
        ((k : ℤ) + 1 + f) ⊓ (l.length : ℤ) := by
      rw [forwardEndOffset]
      split <;> omega
    refine ⟨k + 1, ((f ⊓ ((l.length : ℤ) - ((k : ℤ) + 1))).toNat), ?_, ?_, ?_, ?_⟩
    · rw [heq, hstart]
      push_cast
      ring
    · push_cast
      omega
    · omega
    · rw [handle_first_after, if_neg (by omega : ¬ f < 0)]
      simp only [heq, hstart, hend]
      rw [show (k : ℤ) + 1 - 0 = (k : ℤ) + 1 by ring,
        show ((k : ℤ) + 1 + f) ⊓ (l.length : ℤ) - 0 = ((k : ℤ) + 1 + f) ⊓ (l.length : ℤ) by ring]
      rw [pySlice_eq l ((k : ℤ) + 1) (((k : ℤ) + 1 + f) ⊓ (l.length : ℤ)) (by omega) (by omega)
        (by omega)]
      rw [if_pos (⟨by omega, hk⟩ : (0 : ℤ) ≤ (k : ℤ) ∧ (k : ℤ) < (l.length : ℤ))]
      rw [if_neg (by omega : ¬ (l.length : ℤ) < (k : ℤ))]
      simp only [Except.ok.injEq, Prod.mk.injEq]
      refine ⟨?_, ?_, ?_⟩
      · rw [show ((k : ℤ) + 1).toNat = k + 1 from by omega]
        rw [show min (((k : ℤ) + 1 + f) ⊓ (l.length : ℤ)).toNat l.length - (k + 1) =
          (f ⊓ ((l.length : ℤ) - ((k : ℤ) + 1))).toNat from by omega]
        rw [show ((k + 1 : ℕ) : ℤ) = (k : ℤ) + 1 from by push_cast; ring]
      · rw [show decide ((0:ℤ) < (k : ℤ) + 1) = true from by simp]
        rw [show decide (0 < k + 1) = true from by simp]
      · rw [decide_eq_decide]
        omega

theorem handle_first_after_unknown (l : List α) (f : ℤ) (hf : 0 ≤ f)
    (after : Option (List Char))
    (hA : effectiveCursorOffset after = none ∨
      ∃ k : ℕ, (k : ℤ) < (l.length : ℤ) ∧ effectiveCursorOffset after = some (k : ℤ)) :
    ∃ s cnt : ℕ,
      (s : ℤ) = forwardStartOffset 0 (effectiveCursorOffset after) none ∧
      (cnt : ℤ) = min f ((l.length : ℤ) - (s : ℤ)) ∧
      s + cnt ≤ l.length ∧
      handle_first_after l none f after 0 =
        Except.ok (edgesFrom (s : ℤ) ((l.drop s).take cnt),
          decide (0 < s), decide (s + cnt < l.length)) := by
  rcases hA with heq | ⟨k, hk, heq⟩
  · have hstart : forwardStartOffset 0 (none : Option ℤ) none = 0 := by
      simp [forwardStartOffset]
    have hend : forwardEndOffset 0 f none = 0 + f := rfl
    refine ⟨0, (f ⊓ (l.length : ℤ)).toNat, ?_, ?_, ?_, ?_⟩
    · rw [heq, hstart]
      rfl
    · push_cast
      omega
    · omega
    · rw [handle_first_after, if_neg (by omega : ¬ f < 0)]
      simp only [heq, hstart, hend]
      rw [show (0:ℤ) - 0 = 0 by ring, show (0:ℤ) + f - 0 + 1 = f + 1 by ring,
        show (0:ℤ) + f - 0 = f by ring]
      have hlen1 : (pySlice l 0 (f + 1)).length = min (f + 1).toNat l.length :=
        by rw [pySlice_length l 0 (f + 1) le_rfl (by omega) (by omega)]; omega
      have hlen2 : (pySlice (pySlice l 0 (f + 1)) 0 f).length =
          min f.toNat (min (f + 1).toNat l.length) := by
        rw [pySlice_length _ 0 f le_rfl hf (by omega), hlen1]
        omega
      simp only [Except.ok.injEq, Prod.mk.injEq]
      refine ⟨?_, ?_, ?_⟩
      · rw [pySlice_eq l 0 (f + 1) le_rfl (by omega) (by omega)]
        rw [pySlice_eq _ 0 f le_rfl hf (by omega)]
        simp only [List.drop_zero, Int.toNat_zero, Nat.sub_zero, List.length_take,
          List.take_take]
        rw [show f.toNat ⊓ ((f + 1).toNat ⊓ l.length ⊓ l.length) ⊓ ((f + 1).toNat ⊓ l.length) =
          (f ⊓ (l.length : ℤ)).toNat from by omega]
        rfl
      · rfl
      · rw [hlen2, hlen1, decide_eq_decide]
        omega
  · have hstart : forwardStartOffset 0 (some (k : ℤ)) none = (k : ℤ) + 1 := by
      simp [forwardStartOffset]
      omega
    have hend : forwardEndOffset ((k : ℤ) + 1) f none = (k : ℤ) + 1 + f := rfl
    refine ⟨k + 1, (f ⊓ ((l.length : ℤ) - ((k : ℤ) + 1))).toNat, ?_, ?_, ?_, ?_⟩
    · rw [heq, hstart]
      push_cast
      ring
    · push_cast
      omega
    · omega
    · rw [handle_first_after, if_neg (by omega : ¬ f < 0)]
      simp only [heq, hstart, hend]
      rw [show (k : ℤ) + 1 - 0 = (k : ℤ) + 1 by ring,
        show (k : ℤ) + 1 + f - 0 + 1 = (k : ℤ) + 1 + f + 1 by ring,
        show (k : ℤ) + 1 + f - ((k : ℤ) + 1) = f by ring]
      have hlen1 : (pySlice l ((k : ℤ) + 1) ((k : ℤ) + 1 + f + 1)).length =
          min ((k : ℤ) + 1 + f + 1).toNat l.length - (k + 1) := by
        rw [pySlice_length l ((k : ℤ) + 1) _ (by omega) (by omega) (by omega)]
        omega
      have hlen2 : (pySlice (pySlice l ((k : ℤ) + 1) ((k : ℤ) + 1 + f + 1)) 0 f).length =
          min f.toNat (min ((k : ℤ) + 1 + f + 1).toNat l.length - (k + 1)) := by
        rw [pySlice_length _ 0 f le_rfl hf (by omega), hlen1]
        omega
      simp only [Except.ok.injEq, Prod.mk.injEq]
      refine ⟨?_, ?_, ?_⟩
      · rw [pySlice_eq l ((k : ℤ) + 1) ((k : ℤ) + 1 + f + 1) (by omega) (by omega) (by omega)]
        rw [pySlice_eq _ 0 f le_rfl hf (by omega)]
        simp only [List.drop_zero, Int.toNat_zero, Nat.sub_zero, List.length_take,
          List.length_drop, List.take_take]
        rw [show ((k : ℤ) + 1).toNat = k + 1 from by omega]
        rw [show f.toNat ⊓ ((((k : ℤ) + 1 + f + 1).toNat ⊓ l.length - (k + 1)) ⊓ (l.length - (k + 1))) ⊓
          (((k : ℤ) + 1 + f + 1).toNat ⊓ l.length - (k + 1)) =
          (f ⊓ ((l.length : ℤ) - ((k : ℤ) + 1))).toNat from by omega]
        rw [show ((k + 1 : ℕ) : ℤ) = (k : ℤ) + 1 from by push_cast; ring]
      · rw [show decide ((0:ℤ) < (k : ℤ) + 1) = true from by simp]
        rw [show decide (0 < k + 1) = true from by simp]
      · rw [hlen2, hlen1, decide_eq_decide]
        omega

theorem handle_last_before_window (l : List α) (lst : ℤ) (hl : 0 ≤ lst)
    (before : Option (List Char)) (alen : Option ℤ)
    (hB : effectiveCursorOffset before = none ∨
      ∃ k : ℕ, k ≤ l.length ∧ effectiveCursorOffset before = some (k : ℤ))
    (hL : alen = some (l.length : ℤ) ∨ alen = none) :
    ∃ s cnt : ℕ,
      (s : ℤ) = max (backwardEndOffset (effectiveCursorOffset before) (l.length : ℤ) - lst) 0 ∧
      ((s : ℤ) + (cnt : ℤ)) = backwardEndOffset (effectiveCursorOffset before) (l.length : ℤ) ∧
      s + cnt ≤ l.length ∧
      handle_last_before l alen lst before 0 =
        Except.ok (edgesFrom (s : ℤ) ((l.drop s).take cnt),
          decide (0 < s), decide (s + cnt < l.length)) := by
  have hn : alen.getD (l.length : ℤ) = (l.length : ℤ) := by
    rcases hL with h | h
    · subst h; rfl
    · subst h; rfl
  rcases hB with heq | ⟨k, hk, heq⟩
  · have hEeq : backwardEndOffset (effectiveCursorOffset before) (l.length : ℤ) =
        ((l.length : ℕ) : ℤ) := by rw [heq]; rfl
    refine ⟨(l.length - lst.toNat : ℕ), l.length - (l.length - lst.toNat), ?_, ?_, ?_, ?_⟩
    · rw [hEeq]; omega
    · rw [hEeq]; omega
    · omega
    · rw [handle_last_before, if_neg (by omega : ¬ lst < 0)]
      have hE2 : backwardEndOffset (none : Option ℤ) (l.length : ℤ) = (l.length : ℤ) := rfl
      simp only [hn, heq, hE2]
      rw [show ((0:ℤ) ⊔ 0) = 0 from by omega]
      rw [show ((l.length : ℤ) - lst) ⊔ 0 = ((l.length - lst.toNat : ℕ) : ℤ) from by omega]
      rw [show ((l.length - lst.toNat : ℕ) : ℤ) - 0 = ((l.length - lst.toNat : ℕ) : ℤ) by ring,
        show (l.length : ℤ) - 0 = (l.length : ℤ) by ring]
      rw [pySlice_eq l _ _ (by omega) (by omega) (by omega)]
      rw [show (((l.length - lst.toNat : ℕ) : ℤ)).toNat = l.length - lst.toNat from by omega]
      rw [show min ((l.length : ℤ)).toNat l.length - (l.length - lst.toNat) =
        l.length - (l.length - lst.toNat) from by omega]
      simp only [Except.ok.injEq, Prod.mk.injEq]
      refine ⟨trivial, ?_, ?_⟩
      · rw [decide_eq_decide]
        omega
      · rw [decide_eq_decide]
        omega
  · have hEeq : backwardEndOffset (effectiveCursorOffset before) (l.length : ℤ) =
        ((k : ℕ) : ℤ) := by
      rw [heq, backwardEndOffset]
      rw [if_pos (by omega : (0:ℤ) ≤ (k : ℤ))]
      omega
    refine ⟨(k - lst.toNat : ℕ), k - (k - lst.toNat), ?_, ?_, ?_, ?_⟩
    · rw [hEeq]; omega
    · rw [hEeq]; omega
    · omega
    · rw [handle_last_before, if_neg (by omega : ¬ lst < 0)]
      have hE2 : backwardEndOffset (some (k : ℤ)) (l.length : ℤ) = ((k : ℕ) : ℤ) := by
        rw [backwardEndOffset]
        rw [if_pos (by omega : (0:ℤ) ≤ (k : ℤ))]
        omega
      simp only [hn, heq, hE2]
      rw [show ((0:ℤ) ⊔ 0) = 0 from by omega]
      rw [show ((k : ℤ) - lst) ⊔ 0 = ((k - lst.toNat : ℕ) : ℤ) from by omega]
      rw [show ((k - lst.toNat : ℕ) : ℤ) - 0 = ((k - lst.toNat : ℕ) : ℤ) by ring,
        show ((k : ℕ) : ℤ) - 0 = ((k : ℕ) : ℤ) by ring]
      rw [pySlice_eq l _ _ (by omega) (by omega) (by omega)]
      rw [show (((k - lst.toNat : ℕ) : ℤ)).toNat = k - lst.toNat from by omega]
      rw [show min (((k : ℕ) : ℤ)).toNat l.length - (k - lst.toNat) =
        k - (k - lst.toNat) from by omega]
      rw [if_neg (by omega : ¬ ((k : ℕ) : ℤ) < 0)]
      simp only [Except.ok.injEq, Prod.mk.injEq]
      refine ⟨trivial, ?_, ?_⟩
      · rw [decide_eq_decide]
        omega
      · rw [decide_eq_decide]
        omega

theorem okAssemble_window (l : List α) (x : Except String (List (Edge α) × Bool × Bool))
    (c : Connection α) (s cnt : ℕ)
    (hx : x = Except.ok (edgesFrom (s : ℤ) ((l.drop s).take cnt),
      decide (0 < s), decide (s + cnt < l.length)))
    (hok : okAssemble x = Except.ok c) :
    c = assembleConnection (edgesFrom (s : ℤ) ((l.drop s).take cnt))
      (decide (0 < s)) (decide (s + cnt < l.length)) := by
  subst hx
  rw [okAssemble] at hok
  exact (Except.ok.injEq _ _ ▸ hok).symm

theorem connectionSliceResolved_window (l : List α) (args : ConnectionArguments)
    (first1 alen : Option ℤ) (c : Connection α)
    (hL : alen = some (l.length : ℤ) ∨ alen = none)
    (hF1 : first1 = none ∨ ∃ z : ℤ, 0 ≤ z ∧ first1 = some z)
    (hLa : args.last = none ∨ ∃ z : ℤ, 0 ≤ z ∧ args.last = some z)
    (hA : effectiveCursorOffset args.after = none ∨
      ∃ k : ℕ, (k : ℤ) < (l.length : ℤ) ∧ effectiveCursorOffset args.after = some (k : ℤ))
    (hB : effectiveCursorOffset args.before = none ∨
      ∃ k : ℕ, k ≤ l.length ∧ effectiveCursorOffset args.before = some (k : ℤ))
    (hok : connectionSliceResolved l args 0 first1 alen = Except.ok c) :
    ∃ s cnt : ℕ, s + cnt ≤ l.length ∧
      c = assembleConnection (edgesFrom (s : ℤ) ((l.drop s).take cnt))
        (decide (0 < s)) (decide (s + cnt < l.length)) := by
  rw [connectionSliceResolved] at hok
  by_cases hc : (args.last.isNone && pyTruthyStr args.before) = true
  · rw [if_pos hc] at hok
    rcases hL with rfl | rfl
    · rw [connectionSliceDispatch] at hok
      obtain ⟨s, cnt, _, _, hs3, heq⟩ :=
        handle_last_before_window l (l.length : ℤ) (by omega) args.before
          (some (l.length : ℤ)) hB (Or.inl rfl)
      exact ⟨s, cnt, hs3, okAssemble_window l _ c s cnt heq hok⟩
    · rw [connectionSliceDispatch] at hok
      rcases hF1 with rfl | ⟨z, hz, rfl⟩
      · rw [connectionSliceForward] at hok
        exact absurd hok (by simp)
      · rw [connectionSliceForward] at hok
        obtain ⟨s, cnt, _, _, hs3, heq⟩ :=
          handle_first_after_unknown l z hz args.after hA
        exact ⟨s, cnt, hs3, okAssemble_window l _ c s cnt heq hok⟩
  · rw [if_neg hc] at hok
    rcases hLa with hlast | ⟨z, hz, hlast⟩
    · rw [hlast, connectionSliceDispatch] at hok
      rcases hF1 with rfl | ⟨f, hf, rfl⟩
      · rw [connectionSliceForward] at hok
        exact absurd hok (by simp)
      · rw [connectionSliceForward] at hok
        rcases hL with rfl | rfl
        · obtain ⟨s, cnt, _, _, hs3, heq⟩ :=
            handle_first_after_known l f hf args.after hA
          exact ⟨s, cnt, hs3, okAssemble_window l _ c s cnt heq hok⟩
        · obtain ⟨s, cnt, _, _, hs3, heq⟩ :=
            handle_first_after_unknown l f hf args.after hA
          exact ⟨s, cnt, hs3, okAssemble_window l _ c s cnt heq hok⟩
    · rw [hlast, connectionSliceDispatch] at hok
      obtain ⟨s, cnt, _, _, hs3, heq⟩ :=
        handle_last_before_window l z hz args.before alen hB hL
      exact ⟨s, cnt, hs3, okAssemble_window l _ c s cnt heq hok⟩

theorem connection_window (l : List α) (args : ConnectionArguments) (lenOpt : Option ℤ)
    (c : Connection α)
    (hL : lenOpt = some (l.length : ℤ) ∨ lenOpt = none)
    (hF : args.first = none ∨ ∃ z : ℤ, 0 ≤ z ∧ args.first = some z)
    (hLa : args.last = none ∨ ∃ z : ℤ, 0 ≤ z ∧ args.last = some z)
    (hA : effectiveCursorOffset args.after = none ∨
      ∃ k : ℕ, (k : ℤ) < (l.length : ℤ) ∧ effectiveCursorOffset args.after = some (k : ℤ))
    (hB : effectiveCursorOffset args.before = none ∨
      ∃ k : ℕ, k ≤ l.length ∧ effectiveCursorOffset args.before = some (k : ℤ))
    (hok : connection_from_array_slice l args 0 lenOpt none = Except.ok c) :
    ∃ s cnt : ℕ, s + cnt ≤ l.length ∧
      c = assembleConnection (edgesFrom (s : ℤ) ((l.drop s).take cnt))
        (decide (0 < s)) (decide (s + cnt < l.length)) := by
  rw [connection_from_array_slice] at hok
  by_cases h1 : (pyTruthyInt args.first && pyTruthyInt args.last) = true
  · rw [if_pos h1] at hok; exact absurd hok (by simp)
  rw [if_neg h1] at hok
  by_cases h2 : (pyTruthyStr args.before && pyTruthyStr args.after) = true
  · rw [if_pos h2] at hok; exact absurd hok (by simp)
  rw [if_neg h2] at hok
  by_cases h3 : (pyTruthyInt args.first && pyTruthyStr args.before) = true
  · rw [if_pos h3] at hok; exact absurd hok (by simp)
  rw [if_neg h3] at hok
  by_cases h4 : (pyTruthyInt args.last && pyTruthyStr args.after) = true
  · rw [if_pos h4] at hok; exact absurd hok (by simp)
  rw [if_neg h4] at hok
  rw [show resolveSliceLength none lenOpt = lenOpt from rfl] at hok
  rw [connectionSliceCore] at hok
  by_cases hdef : (args.first.isNone && (pyTruthyStr args.after || args.last.isNone)) = true
  · rw [if_pos hdef] at hok
    rcases hL with rfl | rfl
    · rw [connectionSliceDefaulted] at hok
      exact connectionSliceResolved_window l args _ _ c (Or.inl rfl)
        (Or.inr ⟨(l.length : ℤ), by omega, rfl⟩) hLa hA hB hok
    · rw [connectionSliceDefaulted] at hok
      exact connectionSliceResolved_window l args _ _ c (Or.inl rfl)
        (Or.inr ⟨(l.length : ℤ), by omega, rfl⟩) hLa hA hB hok
  · rw [if_neg hdef] at hok
    exact connectionSliceResolved_window l args _ _ c hL hF hLa hA hB hok

/-! ### Shape of every successful result -/

theorem okAssemble_ok (x : Except String (List (Edge α) × Bool × Bool)) (c : Connection α)
    (hok : okAssemble x = Except.ok c) :
    ∃ edges hp hn, x = Except.ok (edges, hp, hn) ∧ c = assembleConnection edges hp hn := by
  rcases x with e | ⟨edges, hp, hn⟩
  · rw [okAssemble] at hok
    exact absurd hok (by simp)
  · rw [okAssemble] at hok
    exact ⟨edges, hp, hn, rfl, (Except.ok.injEq _ _ ▸ hok).symm⟩

theorem handle_first_after_shape (l : List α) (alen : Option ℤ) (f : ℤ)
    (after : Option (List Char)) (ss : ℤ) (t : List (Edge α) × Bool × Bool)
    (h : handle_first_after l alen f after ss = Except.ok t) :
    ∃ (s : ℤ) (nodes : List α), t.1 = edgesFrom s nodes := by
  rw [handle_first_after] at h
  split_ifs at h with h0
  rcases alen with _ | n
  · simp only [Except.ok.injEq] at h
    exact ⟨_, _, congrArg Prod.fst h.symm⟩
  · simp only [Except.ok.injEq] at h
    exact ⟨_, _, congrArg Prod.fst h.symm⟩

theorem handle_last_before_shape (l : List α) (alen : Option ℤ) (lst : ℤ)
    (before : Option (List Char)) (ss : ℤ) (t : List (Edge α) × Bool × Bool)
    (h : handle_last_before l alen lst before ss = Except.ok t) :
    ∃ (s : ℤ) (nodes : List α), t.1 = edgesFrom s nodes := by
  rw [handle_last_before] at h
  split_ifs at h with h0
  simp only [Except.ok.injEq] at h
  exact ⟨_, _, congrArg Prod.fst h.symm⟩

theorem connection_ok_shape (l : List α) (args : ConnectionArguments) (ss : ℤ)
    (lenOpt aslOpt : Option ℤ) (c : Connection α)
    (hok : connection_from_array_slice l args ss lenOpt aslOpt = Except.ok c) :
    ∃ (s : ℤ) (nodes : List α) (hp hn : Bool),
      c = assembleConnection (edgesFrom s nodes) hp hn := by
  rw [connection_from_array_slice] at hok
  by_cases h1 : (pyTruthyInt args.first && pyTruthyInt args.last) = true
  · rw [if_pos h1] at hok; exact absurd hok (by simp)
  rw [if_neg h1] at hok
  by_cases h2 : (pyTruthyStr args.before && pyTruthyStr args.after) = true
  · rw [if_pos h2] at hok; exact absurd hok (by simp)
  rw [if_neg h2] at hok
  by_cases h3 : (pyTruthyInt args.first && pyTruthyStr args.before) = true
  · rw [if_pos h3] at hok; exact absurd hok (by simp)
  rw [if_neg h3] at hok
  by_cases h4 : (pyTruthyInt args.last && pyTruthyStr args.after) = true
  · rw [if_pos h4] at hok; exact absurd hok (by simp)
  rw [if_neg h4] at hok
  rw [connectionSliceCore] at hok
  have core : ∀ (first1 alen : Option ℤ),
      connectionSliceResolved l args ss first1 alen = Except.ok c →
      ∃ (s : ℤ) (nodes : List α) (hp hn : Bool),
        c = assembleConnection (edgesFrom s nodes) hp hn := by
    intro first1 alen hok
    rw [connectionSliceResolved] at hok
    rcases hlast1 : (if args.last.isNone && pyTruthyStr args.before then alen else args.last)
      with _ | lst
    · rw [hlast1, connectionSliceDispatch] at hok
      rcases first1 with _ | f
      · rw [connectionSliceForward] at hok
        exact absurd hok (by simp)
      · rw [connectionSliceForward] at hok
        obtain ⟨edges, hp, hn, hx, hc⟩ := okAssemble_ok _ c hok
        obtain ⟨s, nodes, hes⟩ := handle_first_after_shape l alen f args.after ss _ hx
        exact ⟨s, nodes, hp, hn, by rw [hc, hes.symm]⟩
    · rw [hlast1, connectionSliceDispatch] at hok
      obtain ⟨edges, hp, hn, hx, hc⟩ := okAssemble_ok _ c hok
      obtain ⟨s, nodes, hes⟩ := handle_last_before_shape l alen lst args.before ss _ hx
      exact ⟨s, nodes, hp, hn, by rw [hc, hes.symm]⟩
  by_cases hdef : (args.first.isNone && (pyTruthyStr args.after || args.last.isNone)) = true
  · rw [if_pos hdef] at hok
    rcases halen0 : resolveSliceLength aslOpt lenOpt with _ | n
    · rw [halen0] at hok
      simp only [connectionSliceDefaulted] at hok
      exact core _ _ hok
    · rw [halen0] at hok
      simp only [connectionSliceDefaulted] at hok
      exact core _ _ hok
  · rw [if_neg hdef] at hok
    exact core _ _ hok

/-! ### Cursor lemmas used by the claim theorems -/

theorem b64EncodeBytes_ne_nil (bs : List ℕ) (h : bs ≠ []) : b64EncodeBytes bs ≠ [] := by
  rcases bs with _ | ⟨a, _ | ⟨b, _ | ⟨c, rest⟩⟩⟩
  · exact absurd rfl h
  · simp [b64EncodeBytes]
  · simp [b64EncodeBytes]
  · simp [b64EncodeBytes]

theorem offset_to_cursor_ne_nil (i : ℤ) : offset_to_cursor i ≠ [] := by
  rw [offset_to_cursor, base64]
  apply b64EncodeBytes_ne_nil
  rw [show PREFIX ++ intDecRepr i = 'a' :: ("rrayconnection:".toList ++ intDecRepr i)
    from rfl]
  rw [utf8Encode_cons, utf8EncodeChar_ascii 'a' (by decide)]
  simp

theorem effectiveCursorOffset_offset_to_cursor (i : ℤ) :
    effectiveCursorOffset (some (offset_to_cursor i)) = some i := by
  rw [effectiveCursorOffset]
  rw [if_neg (by
    simp only [List.isEmpty_iff]
    exact offset_to_cursor_ne_nil i)]
  exact cursor_to_offset_offset_to_cursor i

/-! ### The claims -/

/-- C3: for every non-negative integer `o`,
`cursor_to_offset(offset_to_cursor(o)) == o` — the cursor codec
round-trips. -/
theorem c3_cursor_round_trip (o : ℕ) :
    cursor_to_offset (offset_to_cursor (o : ℤ)) = some (o : ℤ) :=
  cursor_to_offset_offset_to_cursor (o : ℤ)

/-- C4 counterexample: the claim says `cursor_to_offset` returns absent on
a mis-prefixed cursor and returns an integer only for strings of the form
`encode(prefix + integer)`.  The code slices off `len(PREFIX)` characters
without checking them: the base64 encoding of the 17-character string
`"AAAAAAAAAAAAAAAA7"` (16 `'A'`s, which are not the prefix, then `'7'`)
is decoded to the integer `7`. -/
theorem c4_counterexample :
    cursor_to_offset (base64 ("AAAAAAAAAAAAAAAA7".toList)) = some 7 ∧
    unbase64 (base64 ("AAAAAAAAAAAAAAAA7".toList)) = some ("AAAAAAAAAAAAAAAA7".toList) ∧
    "AAAAAAAAAAAAAAAA7".toList.take ( PREFIX.length) ≠ PREFIX := by
  refine ⟨by decide, by decide, by decide⟩

/-- C4 (amended): `cursor_to_offset` is total (modelled by returning
`Option`); it returns absent when base64/UTF-8 decoding fails, and it
parses the remainder after dropping `len(PREFIX)` characters without
verifying the prefix: for every 16-character ASCII string `p` — matching
the prefix or not — and every integer `i`,
`cursor_to_offset(base64(p + str(i)))` is `i`. -/
theorem c4_tail_parse_amended (p : List Char) (hp : p.length = PREFIX.length)
    (hascii : ∀ c ∈ p, c.toNat < 128) (i : ℤ) :
    cursor_to_offset (base64 (p ++ intDecRepr i)) = some i ∧
    (∀ s : List Char, unbase64 s = none → cursor_to_offset s = none) := by
  constructor
  · rw [cursor_to_offset]
    rw [unbase64_base64_ascii (p ++ intDecRepr i) (by
      intro c hc
      rcases List.mem_append.mp hc with hc | hc
      · exact hascii c hc
      · exact intDecRepr_ascii i c hc)]
    show pyInt ((p ++ intDecRepr i).drop PREFIX.length) = some i
    rw [← hp, List.drop_left, pyInt_intDecRepr]
  · intro s hs
    rw [cursor_to_offset, hs]

/-- C4 witness: the amended theorem applied to the concrete mis-prefixed
cursor of the counterexample. -/
theorem c4_tail_parse_witness :
    cursor_to_offset (base64 ("AAAAAAAAAAAAAAAA".toList ++ intDecRepr 7)) = some 7 ∧
    (∀ s : List Char, unbase64 s = none → cursor_to_offset s = none) :=
  c4_tail_parse_amended ("AAAAAAAAAAAAAAAA".toList) (by decide) (by decide) 7

/-- C7 counterexample: the claim says a decoded `before` offset is clamped
to `[0, total_length]`, which would send a negative offset to `0`.  The
code instead keeps `end_offset = total_length` for a negative decoded
`before` (lines 344-348): with total length `3` and `before`
decoding to `-3`, `end_offset` is `3`, not `clamp(-3,[0,3]) = 0` — so the
call returns the last two elements rather than an empty page. -/
theorem c7_counterexample :
    cursor_to_offset (offset_to_cursor (-3)) = some (-3) ∧
    backwardEndOffset (some (-3)) 3 = 3 ∧
    (3 : ℤ) ≠ max 0 (min (-3) 3) ∧
    connection_from_array [10, 20, 30]
        { last := some 2, before := some (offset_to_cursor (-3)) } =
      Except.ok
        { edges := [{ node := 20, cursor := offset_to_cursor 1 },
                    { node := 30, cursor := offset_to_cursor 2 }],
          pageInfo := { startCursor := some (offset_to_cursor 1),
                        endCursor := some (offset_to_cursor 2),
                        hasPreviousPage := true, hasNextPage := true } } := by
  refine ⟨by decide, by decide, by decide, by rfl⟩

/-- C7 (amended): in the backward strategy, when `before` decodes to a
non-negative offset, `end_offset = min(before_offset, total_length)`
(which equals the claimed clamp to `[0, total_length]`); when `before` is
absent or fails to decode, and also when it decodes to a NEGATIVE offset,
`end_offset = total_length`. -/
theorem c7_backward_end_offset_amended (n : ℤ) :
    (∀ b : ℤ, 0 ≤ b →
      backwardEndOffset (effectiveCursorOffset (some (offset_to_cursor b))) n = min b n) ∧
    (∀ b : ℤ, b < 0 →
      backwardEndOffset (effectiveCursorOffset (some (offset_to_cursor b))) n = n) ∧
    (∀ s : Option (List Char), effectiveCursorOffset s = none →
      backwardEndOffset (effectiveCursorOffset s) n = n) := by
  refine ⟨fun b hb => ?_, fun b hb => ?_, fun s hs => ?_⟩
  · rw [effectiveCursorOffset_offset_to_cursor, backwardEndOffset, if_pos hb]
  · rw [effectiveCursorOffset_offset_to_cursor, backwardEndOffset,
      if_neg (by omega : ¬ (0 : ℤ) ≤ b)]
  · rw [hs, backwardEndOffset]

/-- C7 witness: the amended theorem at `before = offset_to_cursor 2`,
total length `5`. -/
theorem c7_backward_end_offset_witness :
    backwardEndOffset (effectiveCursorOffset (some (offset_to_cursor 2))) 5 = min 2 5 :=
  (c7_backward_end_offset_amended 5).1 2 (by decide)

/-- C9 counterexample: the claim says an `offset` field in the arguments
is folded into `after` before the forward strategy runs, shifting the
planned window.  The code never reads the `offset` key (lines 101-105):
supplying `offset = 1` with `first = 1` still returns the first element
at cursor offset `0`, identical to the call without `offset`. -/
theorem c9_counterexample :
    connection_from_array [10, 20]
        ({ first := some 1, offset := some 1 } : ConnectionArguments) =
      connection_from_array [10, 20] ({ first := some 1 } : ConnectionArguments) ∧
    connection_from_array [10, 20]
        ({ first := some 1, offset := some 1 } : ConnectionArguments) =
      Except.ok
        { edges := [{ node := 10, cursor := offset_to_cursor 0 }],
          pageInfo := { startCursor := some (offset_to_cursor 0),
                        endCursor := some (offset_to_cursor 0),
                        hasPreviousPage := false, hasNextPage := true } } ∧
    cursor_to_offset (offset_to_cursor 0) = some 0 := by
  refine ⟨rfl, by rfl, by decide⟩

/-- C9 (amended): the `offset` field of the argument record is ignored by
`connection_from_array_slice`: any two argument records differing only in
`offset` produce identical results, so supplying `offset` never changes
the planned window. -/
theorem c9_offset_ignored_amended (α : Type) (l : List α) (args : ConnectionArguments)
    (o1 o2 : Option ℤ) (ss : ℤ) (lenOpt aslOpt : Option ℤ) :
    connection_from_array_slice l { args with offset := o1 } ss lenOpt aslOpt =
      connection_from_array_slice l { args with offset := o2 } ss lenOpt aslOpt := by
  cases args
  rfl

/-- C5 counterexample: the claim says any record supplying both `first`
and `last` fails validation with no partial result.  The checks use
Python truthiness, so `first = 0` (supplied, falsy) with `last = 2` is
NOT rejected: the call runs the backward strategy and returns the last
two elements. -/
theorem c5_counterexample :
    connection_from_array [10, 20, 30]
        ({ first := some 0, last := some 2 } : ConnectionArguments) =
      Except.ok
        { edges := [{ node := 20, cursor := offset_to_cursor 1 },
                    { node := 30, cursor := offset_to_cursor 2 }],
          pageInfo := { startCursor := some (offset_to_cursor 1),
                        endCursor := some (offset_to_cursor 2),
                        hasPreviousPage := true, hasNextPage := false } } ∧
    (connection_from_array [10, 20, 30]
        ({ first := some 0, last := some 2 } : ConnectionArguments)).isOk = true := by
  refine ⟨by rfl, by rfl⟩

/-- C5 (amended): for every argument record in which `first` and `last`
are both supplied with TRUTHY values (non-`None` and nonzero), or
`before` and `after` are both supplied with TRUTHY values (non-`None` and
nonempty), the call fails with the corresponding descriptive `ValueError`
and no connection is produced. -/
theorem c5_mutual_exclusion_amended (α : Type) (l : List α) (args : ConnectionArguments)
    (ss : ℤ) (lenOpt aslOpt : Option ℤ) :
    (pyTruthyInt args.first = true → pyTruthyInt args.last = true →
      connection_from_array_slice l args ss lenOpt aslOpt =
        Except.error "Mixing 'first' and 'last' is not supported.") ∧
    (pyTruthyStr args.before = true → pyTruthyStr args.after = true →
      connection_from_array_slice l args ss lenOpt aslOpt =
        Except.error "Mixing 'first' and 'last' is not supported." ∨
      connection_from_array_slice l args ss lenOpt aslOpt =
        Except.error "Mixing 'before' and 'after' is not supported.") := by
  constructor
  · intro hf hl
    rw [connection_from_array_slice, if_pos (by rw [hf, hl]; rfl)]
  · intro hb ha
    rw [connection_from_array_slice]
    by_cases h1 : (pyTruthyInt args.first && pyTruthyInt args.last) = true
    · left
      rw [if_pos h1]
    · right
      rw [if_neg h1, if_pos (by rw [hb, ha]; rfl)]

/-- C5 witness: the amended theorem at concrete truthy pairs. -/
theorem c5_mutual_exclusion_witness :
    connection_from_array_slice [10]
        ({ first := some 1, last := some 1 } : ConnectionArguments) 0 none none =
      Except.error "Mixing 'first' and 'last' is not supported." :=
  (c5_mutual_exclusion_amended ℕ [10]
    { first := some 1, last := some 1 } 0 none none).1 (by decide) (by decide)

/-- C6 counterexample: the claim says a request with neither `first` nor
`last`, no size ceiling and no known total length fails with an
"unbounded pagination" error.  The code instead computes
`len(array_slice)` as a fallback and answers the request with the full
result set. -/
theorem c6_counterexample :
    connection_from_array_slice [10] ({} : ConnectionArguments) 0 none none =
      Except.ok
        { edges := [{ node := 10, cursor := offset_to_cursor 0 }],
          pageInfo := { startCursor := some (offset_to_cursor 0),
                        endCursor := some (offset_to_cursor 0),
                        hasPreviousPage := false, hasNextPage := false } } := by
  rfl

/-- C6 (amended): when neither `first` nor `last` is supplied and no
`array_length`/`array_slice_length` is given, the code falls back to
`len(array_slice)` (lines 127-135), defaults `first` to it, and answers
with the full result set and both page flags `False` — there is no
`max_limit` parameter and no "unbounded pagination" error in this
module. -/
theorem c6_fallback_length_amended (α : Type) (l : List α) :
    connection_from_array_slice l {} 0 none none =
      Except.ok (assembleConnection (edgesFrom 0 l) false false) := by
  obtain ⟨s, cnt, hs1, hs2, hs3, heq⟩ :=
    handle_first_after_known l (l.length : ℤ) (by omega) none (Or.inl rfl)
  have hs0 : s = 0 := by
    have h0 : (s : ℤ) = 0 := by
      rw [hs1, show effectiveCursorOffset none = (none : Option ℤ) from rfl]
      simp [forwardStartOffset]
    omega
  subst hs0
  have hcnt : cnt = l.length := by omega
  subst hcnt
  have hroute : connection_from_array_slice l ({} : ConnectionArguments) 0 none none =
      okAssemble (handle_first_after l (some (l.length : ℤ)) (l.length : ℤ) none 0) := rfl
  rw [hroute, heq, okAssemble]
  rw [List.drop_zero, List.take_length]
  rw [show decide (0 + l.length < l.length) = false from decide_eq_false (by omega)]
  rfl

/-- C10: beyond the two mutual exclusions of the spec, the code also
rejects `first`+`before` and `last`+`after`: whenever both members of
either pair are supplied with truthy values, the call yields a
`ValueError` (lines 117-121) before any slicing. -/
theorem c10_extra_mutual_exclusions (α : Type) (l : List α) (args : ConnectionArguments)
    (ss : ℤ) (lenOpt aslOpt : Option ℤ) :
    (pyTruthyInt args.first = true → pyTruthyStr args.before = true →
      ∃ e, connection_from_array_slice l args ss lenOpt aslOpt = Except.error e) ∧
    (pyTruthyInt args.last = true → pyTruthyStr args.after = true →
      ∃ e, connection_from_array_slice l args ss lenOpt aslOpt = Except.error e) := by
  constructor
  · intro hf hb
    rw [connection_from_array_slice]
    by_cases h1 : (pyTruthyInt args.first && pyTruthyInt args.last) = true
    · exact ⟨_, by rw [if_pos h1]⟩
    rw [if_neg h1]
    by_cases h2 : (pyTruthyStr args.before && pyTruthyStr args.after) = true
    · exact ⟨_, by rw [if_pos h2]⟩
    rw [if_neg h2]
    exact ⟨_, by rw [if_pos (by rw [hf, hb]; rfl)]⟩
  · intro hl ha
    rw [connection_from_array_slice]
    by_cases h1 : (pyTruthyInt args.first && pyTruthyInt args.last) = true
    · exact ⟨_, by rw [if_pos h1]⟩
    rw [if_neg h1]
    by_cases h2 : (pyTruthyStr args.before && pyTruthyStr args.after) = true
    · exact ⟨_, by rw [if_pos h2]⟩
    rw [if_neg h2]
    by_cases h3 : (pyTruthyInt args.first && pyTruthyStr args.before) = true
    · exact ⟨_, by rw [if_pos h3]⟩
    rw [if_neg h3]
    exact ⟨_, by rw [if_pos (by rw [hl, ha]; rfl)]⟩

/-- C10 witness: the theorem at concrete truthy pairs. -/
theorem c10_extra_mutual_exclusions_witness :
    (∃ e, connection_from_array_slice [10]
        ({ first := some 1, before := some (offset_to_cursor 0) } : ConnectionArguments)
        0 none none = Except.error e) ∧
    (∃ e, connection_from_array_slice [10]
        ({ last := some 1, after := some (offset_to_cursor 0) } : ConnectionArguments)
        0 none none = Except.error e) :=
  ⟨(c10_extra_mutual_exclusions ℕ [10]
      { first := some 1, before := some (offset_to_cursor 0) } 0 none none).1
      (by decide) (by decide),
   (c10_extra_mutual_exclusions ℕ [10]
      { last := some 1, after := some (offset_to_cursor 0) } 0 none none).2
      (by decide) (by decide)⟩

/-- C1 counterexample: the claim says `hasPreviousPage` is true iff
elements exist before the first returned edge.  For a 1-element source
with `first = 1` and a stale `after` cursor pointing past the end
(offset 5 > length 1), lines 300-303 force `hasPreviousPage = True` while
the returned page starts at offset `0` — no source index lies before the
first returned edge. -/
theorem c1_counterexample :
    connection_from_array [10]
        ({ first := some 1, after := some (offset_to_cursor 5) } : ConnectionArguments) =
      Except.ok
        { edges := [{ node := 10, cursor := offset_to_cursor 0 }],
          pageInfo := { startCursor := some (offset_to_cursor 0),
                        endCursor := some (offset_to_cursor 0),
                        hasPreviousPage := true, hasNextPage := false } } ∧
    cursor_to_offset (offset_to_cursor 0) = some 0 ∧
    (∀ j : ℕ, j < 1 → ¬ ((j : ℤ) < 0)) := by
  refine ⟨by rfl, by decide, by decide⟩

/-- C1 (amended): for every request against the full data source with
`slice_start = 0`, total length supplied as the source length or left
unknown, non-negative `first`/`last`, and cursors absent or decoding to
in-range offsets (`after` in `[0, n)`, `before` in `[0, n]`), the
returned edges are a contiguous block of the source at offsets
`[s, s+cnt)`, `hasNextPage` is true iff a source element exists at or
after `s+cnt`, and `hasPreviousPage` is true iff a source element exists
before `s`. -/
theorem c1_page_flags_amended (α : Type) (l : List α) (args : ConnectionArguments)
    (lenOpt : Option ℤ) (c : Connection α)
    (hL : lenOpt = some (l.length : ℤ) ∨ lenOpt = none)
    (hF : args.first = none ∨ ∃ z : ℤ, 0 ≤ z ∧ args.first = some z)
    (hLa : args.last = none ∨ ∃ z : ℤ, 0 ≤ z ∧ args.last = some z)
    (hA : args.after = none ∨
      ∃ k : ℕ, k < l.length ∧ args.after = some (offset_to_cursor (k : ℤ)))
    (hB : args.before = none ∨
      ∃ k : ℕ, k ≤ l.length ∧ args.before = some (offset_to_cursor (k : ℤ)))
    (hok : connection_from_array_slice l args 0 lenOpt none = Except.ok c) :
    ∃ s cnt : ℕ, s + cnt ≤ l.length ∧
      c.edges = edgesFrom (s : ℤ) ((l.drop s).take cnt) ∧
      (c.pageInfo.hasNextPage = true ↔ ∃ j : ℕ, s + cnt ≤ j ∧ j < l.length) ∧
      (c.pageInfo.hasPreviousPage = true ↔ ∃ j : ℕ, j < s ∧ j < l.length) := by
  have hA' : effectiveCursorOffset args.after = none ∨
      ∃ k : ℕ, (k : ℤ) < (l.length : ℤ) ∧ effectiveCursorOffset args.after = some (k : ℤ) := by
    rcases hA with h | ⟨k, hk, h⟩
    · left
      rw [h]
      rfl
    · right
      exact ⟨k, by omega, by rw [h, effectiveCursorOffset_offset_to_cursor]⟩
  have hB' : effectiveCursorOffset args.before = none ∨
      ∃ k : ℕ, k ≤ l.length ∧ effectiveCursorOffset args.before = some (k : ℤ) := by
    rcases hB with h | ⟨k, hk, h⟩
    · left
      rw [h]
      rfl
    · right
      exact ⟨k, hk, by rw [h, effectiveCursorOffset_offset_to_cursor]⟩
  obtain ⟨s, cnt, hle, hc⟩ := connection_window l args lenOpt c hL hF hLa hA' hB' hok
  subst hc
  refine ⟨s, cnt, hle, rfl, ?_, ?_⟩
  · show (decide (s + cnt < l.length) = true) ↔ _
    rw [decide_eq_true_eq]
    constructor
    · intro h
      exact ⟨s + cnt, le_rfl, h⟩
    · rintro ⟨j, hj1, hj2⟩
      omega
  · show (decide (0 < s) = true) ↔ _
    rw [decide_eq_true_eq]
    constructor
    · intro h
      exact ⟨s - 1, by omega, by omega⟩
    · rintro ⟨j, hj1, hj2⟩
      omega

/-- C1 witness: the amended theorem at `[10, 20]` with `first = 1`. -/
theorem c1_page_flags_witness :
    ∃ s cnt : ℕ, s + cnt ≤ ([10, 20] : List ℕ).length ∧
      ({ edges := [{ node := 10, cursor := offset_to_cursor 0 }],
         pageInfo := { startCursor := some (offset_to_cursor 0),
                       endCursor := some (offset_to_cursor 0),
                       hasPreviousPage := false, hasNextPage := true } } : Connection ℕ).edges
        = edgesFrom (s : ℤ) ((([10, 20] : List ℕ).drop s).take cnt) ∧
      (({ edges := [{ node := 10, cursor := offset_to_cursor 0 }],
          pageInfo := { startCursor := some (offset_to_cursor 0),
                        endCursor := some (offset_to_cursor 0),
                        hasPreviousPage := false, hasNextPage := true } } :
            Connection ℕ).pageInfo.hasNextPage = true ↔
        ∃ j : ℕ, s + cnt ≤ j ∧ j < ([10, 20] : List ℕ).length) ∧
      (({ edges := [{ node := 10, cursor := offset_to_cursor 0 }],
          pageInfo := { startCursor := some (offset_to_cursor 0),
                        endCursor := some (offset_to_cursor 0),
                        hasPreviousPage := false, hasNextPage := true } } :
            Connection ℕ).pageInfo.hasPreviousPage = true ↔
        ∃ j : ℕ, j < s ∧ j < ([10, 20] : List ℕ).length) :=
  c1_page_flags_amended ℕ [10, 20] { first := some 1 } (some 2) _
    (Or.inl rfl) (Or.inr ⟨1, by decide, rfl⟩) (Or.inl rfl) (Or.inl rfl) (Or.inl rfl)
    (by rfl)

/-- C2: for every data source of length `n` and every valid forward
request `(first, after)` — `first` non-negative, `after` absent or an
in-range cursor — the edge count is at most `first` and equals
`min(first, n - start_offset)`, where `start_offset` is the planned
window start computed by `forwardStartOffset`. -/
theorem c2_forward_edge_count (α : Type) (l : List α) (f : ℤ) (hf : 0 ≤ f)
    (after : Option (List Char))
    (hA : after = none ∨
      ∃ k : ℕ, k < l.length ∧ after = some (offset_to_cursor (k : ℤ))) :
    ∃ c : Connection α,
      connection_from_array l { first := some f, after := after } = Except.ok c ∧
      (c.edges.length : ℤ) ≤ f ∧
      (c.edges.length : ℤ) =
        min f ((l.length : ℤ) -
          forwardStartOffset 0 (effectiveCursorOffset after) (some (l.length : ℤ))) := by
  have hA' : effectiveCursorOffset after = none ∨
      ∃ k : ℕ, (k : ℤ) < (l.length : ℤ) ∧ effectiveCursorOffset after = some (k : ℤ) := by
    rcases hA with h | ⟨k, hk, h⟩
    · left
      rw [h]
      rfl
    · right
      exact ⟨k, by omega, by rw [h, effectiveCursorOffset_offset_to_cursor]⟩
  obtain ⟨s, cnt, hs1, hs2, hs3, heq⟩ := handle_first_after_known l f hf after hA'
  refine ⟨assembleConnection (edgesFrom (s : ℤ) ((l.drop s).take cnt))
    (decide (0 < s)) (decide (s + cnt < l.length)), ?_, ?_, ?_⟩
  · rw [connection_from_array, connection_from_array_slice]
    rw [if_neg (by simp [pyTruthyInt, pyTruthyStr])]
    rw [if_neg (by simp [pyTruthyInt, pyTruthyStr])]
    rw [if_neg (by simp [pyTruthyInt, pyTruthyStr])]
    rw [if_neg (by simp [pyTruthyInt, pyTruthyStr])]
    show okAssemble (handle_first_after l (some (l.length : ℤ)) f after 0) = _
    rw [heq, okAssemble]
  · show (((edgesFrom (s : ℤ) ((l.drop s).take cnt)).length : ℕ) : ℤ) ≤ f
    rw [edgesFrom_length, take_drop_length]
    omega
  · show (((edgesFrom (s : ℤ) ((l.drop s).take cnt)).length : ℕ) : ℤ) = _
    rw [edgesFrom_length, take_drop_length, ← hs1]
    omega

/-- C2 witness: the theorem at `[10, 20, 30]` with `first = 2` and no
`after`. -/
theorem c2_forward_edge_count_witness :
    ∃ c : Connection ℕ,
      connection_from_array [10, 20, 30] { first := some 2, after := none } = Except.ok c ∧
      (c.edges.length : ℤ) ≤ 2 ∧
      (c.edges.length : ℤ) =
        min 2 ((([10, 20, 30] : List ℕ).length : ℤ) -
          forwardStartOffset 0 (effectiveCursorOffset none)
            (some (([10, 20, 30] : List ℕ).length : ℤ))) :=
  c2_forward_edge_count ℕ [10, 20, 30] 2 (by decide) none (Or.inl rfl)

/-- C8: in every returned connection, `startCursor`/`endCursor` are the
cursors of the first/last edge and are absent exactly when the edge list
is empty, and the decoded cursor offsets of the edges are strictly
ascending. -/
theorem c8_start_end_cursor (α : Type) (l : List α) (args : ConnectionArguments)
    (ss : ℤ) (lenOpt aslOpt : Option ℤ) (c : Connection α)
    (hok : connection_from_array_slice l args ss lenOpt aslOpt = Except.ok c) :
    c.pageInfo.startCursor = c.edges.head?.map Edge.cursor ∧
    c.pageInfo.endCursor = c.edges.getLast?.map Edge.cursor ∧
    (c.pageInfo.startCursor = none ↔ c.edges = []) ∧
    (c.pageInfo.endCursor = none ↔ c.edges = []) ∧
    List.Chain' (· < ·) (c.edges.filterMap (fun e => cursor_to_offset e.cursor)) := by
  obtain ⟨s, nodes, hp, hn, hc⟩ := connection_ok_shape l args ss lenOpt aslOpt c hok
  subst hc
  refine ⟨rfl, rfl, ?_, ?_, ?_⟩
  · show ((edgesFrom s nodes).head?.map Edge.cursor = none) ↔ _
    rw [Option.map_eq_none', List.head?_eq_none_iff]
    exact Iff.rfl
  · show ((edgesFrom s nodes).getLast?.map Edge.cursor = none) ↔ _
    rw [Option.map_eq_none', List.getLast?_eq_none_iff]
    exact Iff.rfl
  · exact edgesFrom_offsets_chain s nodes

/-- C8 witness: the theorem at `[10]` with `first = 1`. -/
theorem c8_start_end_cursor_witness :
    ({ edges := [{ node := 10, cursor := offset_to_cursor 0 }],
       pageInfo := { startCursor := some (offset_to_cursor 0),
                     endCursor := some (offset_to_cursor 0),
                     hasPreviousPage := false,
                     hasNextPage := false } } : Connection ℕ).pageInfo.startCursor =
      ({ edges := [{ node := 10, cursor := offset_to_cursor 0 }],
         pageInfo := { startCursor := some (offset_to_cursor 0),
                       endCursor := some (offset_to_cursor 0),
                       hasPreviousPage := false,
                       hasNextPage := false } } : Connection ℕ).edges.head?.map Edge.cursor ∧
    ({ edges := [{ node := 10, cursor := offset_to_cursor 0 }],
       pageInfo := { startCursor := some (offset_to_cursor 0),
                     endCursor := some (offset_to_cursor 0),
                     hasPreviousPage := false,
                     hasNextPage := false } } : Connection ℕ).pageInfo.endCursor =
      ({ edges := [{ node := 10, cursor := offset_to_cursor 0 }],
         pageInfo := { startCursor := some (offset_to_cursor 0),
                       endCursor := some (offset_to_cursor 0),
                       hasPreviousPage := false,
                       hasNextPage := false } } : Connection ℕ).edges.getLast?.map Edge.cursor ∧
    (({ edges := [{ node := 10, cursor := offset_to_cursor 0 }],
        pageInfo := { startCursor := some (offset_to_cursor 0),
                      endCursor := some (offset_to_cursor 0),
                      hasPreviousPage := false,
                      hasNextPage := false } } : Connection ℕ).pageInfo.startCursor = none ↔
      ({ edges := [{ node := 10, cursor := offset_to_cursor 0 }],
         pageInfo := { startCursor := some (offset_to_cursor 0),
                       endCursor := some (offset_to_cursor 0),
                       hasPreviousPage := false,
                       hasNextPage := false } } : Connection ℕ).edges = []) ∧
    (({ edges := [{ node := 10, cursor := offset_to_cursor 0 }],
        pageInfo := { startCursor := some (offset_to_cursor 0),
                      endCursor := some (offset_to_cursor 0),
                      hasPreviousPage := false,
                      hasNextPage := false } } : Connection ℕ).pageInfo.endCursor = none ↔
      ({ edges := [{ node := 10, cursor := offset_to_cursor 0 }],
         pageInfo := { startCursor := some (offset_to_cursor 0),
                       endCursor := some (offset_to_cursor 0),
                       hasPreviousPage := false,
                       hasNextPage := false } } : Connection ℕ).edges = []) ∧
    List.Chain' (· < ·)
      (({ edges := [{ node := 10, cursor := offset_to_cursor 0 }],
          pageInfo := { startCursor := some (offset_to_cursor 0),
                        endCursor := some (offset_to_cursor 0),
                        hasPreviousPage := false,
                        hasNextPage := false } } : Connection ℕ).edges.filterMap
        (fun e => cursor_to_offset e.cursor)) :=
  c8_start_end_cursor ℕ [10] { first := some 1 } 0 (some 1) none _ (by rfl)
